import Mathlib

/-!
# Verification of the Monterrey historical-maps build script

Shallow embedding of `src/build/generate.js` (the current version of the
build script).  The filesystem is modelled as a partial map from paths to
modification times; the image-processing primitive (`sharp`) is modelled by
a boolean availability flag plus an oracle saying which encode operations
succeed; command-line flags (`--force`, `--skip-images`, `--images-only`)
are explicit parameters of the embedded functions.
-/

namespace MapGen

/-- Paths used by the build script.  The script only ever joins filenames
onto one of a few fixed directory constants (`IMAGES_DIR`,
`THUMBNAILS_DIR`, `public/images`, `DATA_DIR`, `PUBLIC_DIR` for HTML), so a
path is faithfully represented by the directory constant it lives in
together with the file name inside it.  Distinct directories give distinct
paths. -/
inductive FPath where
  | srcImage (name : String)
  | thumb (name : String)
  | publicImage (name : String)
  | htmlFile (name : String)
  deriving DecidableEq

/-- Filesystem state: `some t` means the file exists with modification time
`t`; `none` means the file does not exist.  Modification times are integers
(milliseconds since epoch). -/
def FS : Type := FPath → Option Int

/-- Writing a file (`sharp(...).toFile`, `fs.writeFileSync`,
`fs.copyFileSync`) creates it with the current clock value as its
modification time. -/
def fsWrite (fs : FS) (p : FPath) (t : Int) : FS :=
  fun q => if q = p then some t else fs q

/-- One map metadata record (`data/maps/*.json`).  Only the fields the
build script reads in the verified components are modelled: `year` (sort
key in `loadMapData`), `imageFile`, `imageWidth`, `imageHeight` (derivative
generation) and `id` (HTML output filename); the remaining descriptive
fields of a record are not consulted by these code paths. -/
structure MapRecord where
  id : String
  imageFile : String
  imageWidth : Int
  imageHeight : Int
  year : Int
  deriving DecidableEq

/-- JavaScript `String.prototype.toLowerCase`, character by character. -/
def toLowerCase (s : String) : String := ⟨s.data.map Char.toLower⟩

/-- JavaScript `String.prototype.endsWith`, as a suffix test on the
character sequences. -/
def strEndsWith (s sfx : String) : Bool := sfx.data.isSuffixOf s.data

/-- Remove the last `n` characters of a string. -/
def strDropRight (s : String) (n : Nat) : String :=
  ⟨s.data.take (s.data.length - n)⟩

/-- The regex `\.(jpg|jpeg|png)$` with the `i` flag: if the filename ends
(case-insensitively) in `.jpg`, `.jpeg` or `.png`, return the part before
that extension, otherwise `none`. -/
def stripRasterExt (f : String) : Option String :=
  let l := toLowerCase f
  if strEndsWith l ".jpeg" then some (strDropRight f 5)
  else if strEndsWith l ".jpg" then some (strDropRight f 4)
  else if strEndsWith l ".png" then some (strDropRight f 4)
  else none

/-- `map.imageFile.replace(/\.(jpg|jpeg|png)$/i, '-thumb.jpg')`: a
`String.replace` with an anchored regex either rewrites the matched
extension or, when nothing matches, leaves the string unchanged. -/
def thumbnailFilename (imageFile : String) : String :=
  match stripRasterExt imageFile with
  | some stem => stem ++ "-thumb.jpg"
  | none => imageFile

/-- `map.imageFile.toLowerCase().endsWith('.png')`. -/
def isPNG (f : String) : Bool := strEndsWith (toLowerCase f) ".png"

/-- `const ext = isPNG ? '.png' : '.jpg'`. -/
def fallbackExt (f : String) : String := if isPNG f then ".png" else ".jpg"

/-- `map.imageFile.replace(/\.(jpg|jpeg|png)$/i, '')`. -/
def baseName (f : String) : String :=
  match stripRasterExt f with
  | some stem => stem
  | none => f

/-- One entry of the `sizes` array of `generateMultiResolutionImages`. -/
structure SizeTier where
  suffix : String
  scale : ℚ
  description : String
  deriving DecidableEq

/-- The `sizes` array.  The scale factors 0.25, 0.50, 0.75 and 1.0 are
dyadic rationals, represented exactly by JavaScript floats, so rationals
model the arithmetic faithfully. -/
def sizes : List SizeTier :=
  [ ⟨"-small", 1/4, "25%"⟩,
    ⟨"-medium", 1/2, "50%"⟩,
    ⟨"-large", 3/4, "75%"⟩,
    ⟨"", 1, "100% (optimized)"⟩ ]

/-- JavaScript `Math.round`: round half toward positive infinity,
i.e. `⌊x + 1/2⌋`. -/
def jsRound (q : ℚ) : ℤ := ⌊q + 1/2⌋

/-- `Math.round(map.imageWidth * size.scale)`. -/
def outputWidth (imageWidth : ℤ) (scale : ℚ) : ℤ :=
  jsRound (imageWidth * scale)

/-- `Math.round(map.imageHeight * size.scale)`. -/
def outputHeight (imageHeight : ℤ) (scale : ℚ) : ℤ :=
  jsRound (imageHeight * scale)

/-- The `allTargetFiles` array built in `generateMultiResolutionImages`:
for each size tier in order, the WebP output and the format-preserving
fallback output, inside `public/images`. -/
def mapTargetFiles (imageFile : String) : List FPath :=
  sizes.flatMap fun size =>
    [ FPath.publicImage (baseName imageFile ++ size.suffix ++ ".webp"),
      FPath.publicImage (baseName imageFile ++ size.suffix ++ fallbackExt imageFile) ]

/-- `needsRegeneration(sourceImage, targetFiles)` (lines 54-80).
`force` is the global `FORCE_REGENERATE` flag.  The `for` loop returning
`true` at the first missing or stale target is `List.any`. -/
def needsRegeneration (force : Bool) (fs : FS) (sourceImage : FPath)
    (targetFiles : List FPath) : Bool :=
  if force then
    true
  else
    match fs sourceImage with
    | none => false
    | some sourceMtime =>
        targetFiles.any fun targetFile =>
          match fs targetFile with
          | none => true
          | some targetMtime => targetMtime < sourceMtime

/-- The running tallies kept by each derivative phase
(`successCount`/`errorCount`/`skippedCount`, resp.
`totalSuccess`/`totalError`/`totalSkipped`). -/
structure Counts where
  success : Nat := 0
  errors : Nat := 0
  skipped : Nat := 0
  deriving DecidableEq

/-- Result of one derivative phase: the filesystem after the phase, the
final counters, and whether the phase bailed out early with the
`Sharp not installed` warning. -/
structure PhaseResult where
  fs : FS
  counts : Counts
  sharpWarning : Bool

/-- Body of the `for (const map of maps)` loop of `generateThumbnails`
(lines 102-147).  `encodeOk m` models whether the `sharp(...).toFile` call
for this map succeeds (`false` = the awaited promise rejects and the
`catch` block runs); a successful call creates the file, so the
`fs.existsSync(thumbnailPath)` verification after it succeeds. -/
def generateThumbStep (force : Bool) (encodeOk : MapRecord → Bool) (now : Int)
    (acc : FS × Counts) (m : MapRecord) : FS × Counts :=
  let fs := acc.1
  let c := acc.2
  let sourceImage := FPath.srcImage m.imageFile
  let thumbnailPath := FPath.thumb (thumbnailFilename m.imageFile)
  if (fs sourceImage).isNone then
    (fs, { c with errors := c.errors + 1 })
  else if needsRegeneration force fs sourceImage [thumbnailPath] = false then
    (fs, { c with skipped := c.skipped + 1 })
  else if encodeOk m then
    (fsWrite fs thumbnailPath now, { c with success := c.success + 1 })
  else
    (fs, { c with errors := c.errors + 1 })

/-- `generateThumbnails(maps)` (lines 83-150).  When `sharp` is not
available the function logs a warning and returns before touching any
file or counter. -/
def generateThumbnails (sharpAvailable force : Bool)
    (encodeOk : MapRecord → Bool) (now : Int) (fs : FS)
    (maps : List MapRecord) : PhaseResult :=
  if sharpAvailable = false then
    ⟨fs, {}, true⟩
  else
    let r := maps.foldl (generateThumbStep force encodeOk now) (fs, {})
    ⟨r.1, r.2, false⟩

/-- Body of the `for (const size of sizes)` loop of
`generateMultiResolutionImages` (lines 212-273).  Each tier writes the
WebP variant and then the fallback variant inside one `try` block: if the
WebP encode fails nothing is written and `totalError` increments once; if
the WebP encode succeeds but the fallback encode fails, the WebP file
stays written and `totalError` increments once; if both succeed,
`totalSuccess` increments by 2. -/
def mrTierStep (encodeOk : FPath → Bool) (now : Int) (imageFile : String)
    (acc : FS × Counts) (size : SizeTier) : FS × Counts :=
  let fs := acc.1
  let c := acc.2
  let webpPath := FPath.publicImage (baseName imageFile ++ size.suffix ++ ".webp")
  let fallbackPath :=
    FPath.publicImage (baseName imageFile ++ size.suffix ++ fallbackExt imageFile)
  if encodeOk webpPath = false then
    (fs, { c with errors := c.errors + 1 })
  else if encodeOk fallbackPath = false then
    (fsWrite fs webpPath now, { c with errors := c.errors + 1 })
  else
    (fsWrite (fsWrite fs webpPath now) fallbackPath now,
     { c with success := c.success + 2 })

/-- Body of the `for (const map of maps)` loop of
`generateMultiResolutionImages` (lines 182-274): missing source counts one
error; an up-to-date variant set counts `allTargetFiles.length` skips;
otherwise every tier is processed in order. -/
def mrMapStep (force : Bool) (encodeOk : FPath → Bool) (now : Int)
    (acc : FS × Counts) (m : MapRecord) : FS × Counts :=
  let fs := acc.1
  let c := acc.2
  let sourceImage := FPath.srcImage m.imageFile
  if (fs sourceImage).isNone then
    (fs, { c with errors := c.errors + 1 })
  else if needsRegeneration force fs sourceImage (mapTargetFiles m.imageFile) = false then
    (fs, { c with skipped := c.skipped + (mapTargetFiles m.imageFile).length })
  else
    sizes.foldl (mrTierStep encodeOk now m.imageFile) (fs, c)

/-- `generateMultiResolutionImages(maps)` (lines 153-277). -/
def generateMultiResolutionImages (sharpAvailable force : Bool)
    (encodeOk : FPath → Bool) (now : Int) (fs : FS)
    (maps : List MapRecord) : PhaseResult :=
  if sharpAvailable = false then
    ⟨fs, {}, true⟩
  else
    let r := maps.foldl (mrMapStep force encodeOk now) (fs, {})
    ⟨r.1, r.2, false⟩

/-- Both derivative phases in the order `build` runs them: thumbnails
first, then the multi-resolution matrix, threading the filesystem.
Returns the final filesystem, the thumbnail counters and the
multi-resolution counters. -/
def runDerivatives (sharpAvailable force : Bool)
    (thumbOk : MapRecord → Bool) (mrOk : FPath → Bool) (now : Int)
    (fs : FS) (maps : List MapRecord) : FS × Counts × Counts :=
  let t := generateThumbnails sharpAvailable force thumbOk now fs maps
  let r := generateMultiResolutionImages sharpAvailable force mrOk now t.fs maps
  (r.fs, t.counts, r.counts)

/-- One file of the metadata directory: its name together with the result
of `JSON.parse(fs.readFileSync(...))` on its contents — `Except.error`
models the exception a malformed file throws. -/
def DataFile : Type := String × Except String MapRecord

/-- The `files.map(file => JSON.parse(...))` step: parsing happens file by
file and the first exception aborts the whole call. -/
def parseAll : List (Except String MapRecord) → Except String (List MapRecord)
  | [] => .ok []
  | e :: rest =>
    match e with
    | .error msg => .error msg
    | .ok r =>
      match parseAll rest with
      | .error msg => .error msg
      | .ok rs => .ok (r :: rs)

/-- The comparator `(a, b) => a.year - b.year`: `a` sorts no later than `b`
exactly when `a.year ≤ b.year`. -/
def yearLe (a b : MapRecord) : Prop := a.year ≤ b.year

instance : DecidableRel yearLe := fun a b => Int.decLe a.year b.year

instance : IsTotal MapRecord yearLe := ⟨fun a b => Int.le_total a.year b.year⟩

instance : IsTrans MapRecord yearLe := ⟨fun _ _ _ => Int.le_trans⟩

/-- `loadMapData()` (lines 40-46): keep the `.json` files of the data
directory, parse each, and sort the records ascending by `year`.
`Array.prototype.sort` with a consistent comparator is a stable sort by
that comparator, modelled here by insertion sort under `yearLe`. -/
def loadMapData (dataFiles : List DataFile) : Except String (List MapRecord) :=
  let files := dataFiles.filter fun f => strEndsWith f.1 ".json"
  match parseAll (files.map fun f => f.2) with
  | .error e => .error e
  | .ok records => .ok (List.insertionSort yearLe records)

/-- `map.id.toUpperCase() + '.html'`, the detail-page filename
(`generateMapDetails`, line 351). -/
def detailFilename (m : MapRecord) : String :=
  String.mk (m.id.data.map Char.toUpper) ++ ".html"

/-- `copyImages()` (lines 422-446): for each entry of the source images
directory (passed in as `imagesList`, the `readdirSync` result), copy it
into `public/images` when it exists; returns the filesystem after the
copies and the list of copied names. -/
def copyImages (now : Int) (fs : FS) (imagesList : List String) :
    FS × List String :=
  imagesList.foldl
    (fun acc img =>
      if (acc.1 (FPath.srcImage img)).isSome then
        (fsWrite acc.1 (FPath.publicImage img) now, acc.2 ++ [img])
      else acc)
    (fs, [])

/-- Observable outcome of a successful `build()` run. -/
structure BuildOutput where
  fs : FS
  thumbCounts : Counts
  mrCounts : Counts
  thumbWarning : Bool
  mrWarning : Bool
  htmlFiles : List String
  copiedImages : List String

/-- `build()` (lines 449-491).  `loadMapData` runs unprotected, so a parse
exception propagates to the top level (`Except.error`); the derivative
phases and the HTML/copy phases never throw.  When `skipImages` is set the
derivative phases are not called; when `imagesOnly` is set HTML generation
(`index.html` plus one detail page per map, in order) and image copying
are not called. -/
def build (sharpAvailable force skipImages imagesOnly : Bool)
    (thumbOk : MapRecord → Bool) (mrOk : FPath → Bool) (now : Int)
    (fs0 : FS) (dataFiles : List DataFile) (imagesList : List String) :
    Except String BuildOutput :=
  match loadMapData dataFiles with
  | .error e => .error e
  | .ok maps =>
    let t :=
      if skipImages then PhaseResult.mk fs0 {} false
      else generateThumbnails sharpAvailable force thumbOk now fs0 maps
    let r :=
      if skipImages then PhaseResult.mk t.fs {} false
      else generateMultiResolutionImages sharpAvailable force mrOk now t.fs maps
    let htmlFiles :=
      if imagesOnly then [] else "index.html" :: maps.map detailFilename
    let afterHtml :=
      htmlFiles.foldl (fun f n => fsWrite f (FPath.htmlFile n) now) r.fs
    let copied :=
      if imagesOnly then (afterHtml, [])
      else copyImages now afterHtml imagesList
    .ok ⟨copied.1, t.counts, r.counts, t.sharpWarning, r.sharpWarning,
         htmlFiles, copied.2⟩

/-- The process exit status: `build().catch(... process.exit(1))` — zero
when `build` resolves, one when it rejects. -/
def buildExitCode (sharpAvailable force skipImages imagesOnly : Bool)
    (thumbOk : MapRecord → Bool) (mrOk : FPath → Bool) (now : Int)
    (fs0 : FS) (dataFiles : List DataFile) (imagesList : List String) : Nat :=
  match build sharpAvailable force skipImages imagesOnly thumbOk mrOk now
      fs0 dataFiles imagesList with
  | .ok _ => 0
  | .error _ => 1

/-- All differences between `fs` and `fs'` are files written with
modification time `t` in a derivative directory (never a source image). -/
def writeBounded (fs fs' : FS) (t : Int) : Prop :=
  ∀ p, fs' p = fs p ∨ fs' p = some t

/-- The source exists with a modification time at most `t`, and every
listed target exists with a modification time at least the source's. -/
def freshFor (fs : FS) (t : Int) (src : FPath) (targets : List FPath) : Prop :=
  ∃ srcM, fs src = some srcM ∧ srcM ≤ t ∧
    ∀ p ∈ targets, ∃ tm, fs p = some tm ∧ srcM ≤ tm

/-! ### Concrete fixtures used by witnesses -/

/-- The empty filesystem. -/
def emptyFS : FS := fun _ => none

/-- A filesystem with one source image (mtime 5) and one up-to-date
thumbnail (mtime 7). -/
def exampleFS : FS := fun p =>
  if p = FPath.srcImage "a.jpg" then some 5
  else if p = FPath.thumb "a-thumb.jpg" then some 7
  else none

/-- Example records with years 1920, 1850 and 1990. -/
def rec1920 : MapRecord := ⟨"s001m001", "a.jpg", 4000, 3000, 1920⟩

def rec1850 : MapRecord := ⟨"s001m002", "b.png", 2000, 1500, 1850⟩

def rec1990 : MapRecord := ⟨"s001m003", "c.jpeg", 1000, 800, 1990⟩

/-- A metadata directory holding the three example records in file order
1920, 1850, 1990. -/
def exampleDataFiles : List DataFile :=
  [ ("s001m001.json", .ok rec1920),
    ("s001m002.json", .ok rec1850),
    ("s001m003.json", .ok rec1990) ]

/-- A filesystem holding only the example source image `a.jpg`, at
modification time 0. -/
def sourceOnlyFS : FS := fun p =>
  if p = FPath.srcImage "a.jpg" then some 0 else none

/-- An encode oracle that fails exactly on the small WebP variant of
`a.jpg` and succeeds everywhere else. -/
def failSmallWebp : FPath → Bool := fun p =>
  if p = FPath.publicImage "a-small.webp" then false else true

end MapGen

namespace MapGen

/-! ## Theorems -/

/-- C2: with the force flag on, `needsRegeneration` returns `true` for
every filesystem state, every source path and every target list,
regardless of existence or modification times. -/
theorem needsRegeneration_force (fs : FS) (src : FPath)
    (targets : List FPath) :
    needsRegeneration true fs src targets = true := rfl

/-- Exact characterisation of `needsRegeneration` when the force flag is
off and the source exists (shared helper). -/
theorem needsRegeneration_true_iff (fs : FS) (src : FPath)
    (targets : List FPath) (srcM : Int) (h : fs src = some srcM) :
    needsRegeneration false fs src targets = true ↔
      ∃ t ∈ targets, fs t = none ∨ ∃ tm, fs t = some tm ∧ tm < srcM := by
  simp only [needsRegeneration, Bool.false_eq_true, if_false, h,
    List.any_eq_true]
  refine exists_congr fun t => and_congr_right fun _ => ?_
  cases hft : fs t with
  | none => simp
  | some tm => simp

/-- C1: with force off and the source present, the result is true iff some
target is missing or some existing target is strictly older than the
source; in particular it is false when every target exists with
modification time at least the source's. -/
theorem needsRegeneration_staleness (fs : FS) (src : FPath)
    (targets : List FPath) (srcM : Int) (h : fs src = some srcM) :
    (needsRegeneration false fs src targets = true ↔
       ∃ t ∈ targets, fs t = none ∨ ∃ tm, fs t = some tm ∧ tm < srcM) ∧
    ((∀ t ∈ targets, ∃ tm, fs t = some tm ∧ srcM ≤ tm) →
       needsRegeneration false fs src targets = false) := by
  refine ⟨needsRegeneration_true_iff fs src targets srcM h, fun hall => ?_⟩
  cases hb : needsRegeneration false fs src targets with
  | false => rfl
  | true =>
    obtain ⟨t, ht, hstale⟩ :=
      (needsRegeneration_true_iff fs src targets srcM h).mp hb
    obtain ⟨tm, htm, hle⟩ := hall t ht
    rcases hstale with hnone | ⟨tm', htm', hlt⟩
    · rw [hnone] at htm; cases htm
    · rw [htm'] at htm
      cases htm
      omega

/-- Witness for C1: source `a.jpg` at mtime 5 with its thumbnail at mtime
7 needs no regeneration. -/
theorem needsRegeneration_staleness_witness :
    needsRegeneration false exampleFS (FPath.srcImage "a.jpg")
      [FPath.thumb "a-thumb.jpg"] = false := by
  refine (needsRegeneration_staleness exampleFS (FPath.srcImage "a.jpg")
    [FPath.thumb "a-thumb.jpg"] 5 (by decide)).2 ?_
  intro t ht
  rw [List.mem_singleton] at ht
  subst ht
  exact ⟨7, by decide, by decide⟩

/-- C3 counterexample: when the force flag is set, `needsRegeneration`
returns `true` even though the source file does not exist, so the claim
as stated (quantifying over every call) fails. -/
theorem needsRegeneration_missing_source_cex :
    emptyFS (FPath.srcImage "a.jpg") = none ∧
    needsRegeneration true emptyFS (FPath.srcImage "a.jpg") [] = true :=
  ⟨rfl, rfl⟩

/-- C3 amended: with the force flag off, a missing source makes
`needsRegeneration` return `false` for every target list. -/
theorem needsRegeneration_missing_source (fs : FS) (src : FPath)
    (targets : List FPath) (h : fs src = none) :
    needsRegeneration false fs src targets = false := by
  simp [needsRegeneration, h]

/-- Witness for C3 (amended): the empty filesystem has no source, so
nothing is regenerated. -/
theorem needsRegeneration_missing_source_witness :
    needsRegeneration false emptyFS (FPath.srcImage "b.png")
      [FPath.thumb "x"] = false :=
  needsRegeneration_missing_source emptyFS _ _ rfl

/-- C9: the fixed ordered scale tiers are 25%, 50%, 75% and 100%; the
requested output box is `round(dim * scale)` in each dimension, giving
1000×750 for a 4000×3000 source at the 25% tier, and exactly the source
dimensions at the 100% tier. -/
theorem scale_tier_box :
    sizes.map (fun s => s.scale) = [1/4, 1/2, 3/4, 1] ∧
    outputWidth 4000 (1/4) = 1000 ∧
    outputHeight 3000 (1/4) = 750 ∧
    (∀ w : ℤ, outputWidth w 1 = w) ∧
    (∀ h : ℤ, outputHeight h 1 = h) := by
  have hfull : ∀ w : ℤ, jsRound (w * 1) = w := by
    intro w
    rw [jsRound, mul_one, add_comm, Int.floor_add_int]
    norm_num
  refine ⟨rfl, ?_, ?_, hfull, hfull⟩
  · rw [outputWidth, jsRound]
    norm_num
  · rw [outputHeight, jsRound]
    norm_num

/-- C8 counterexample: for a source file whose extension is not
jpg/jpeg/png the anchored regex does not match, so the thumbnail filename
is the unchanged `imageFile` — it does not end in `-thumb.jpg`, hence it
is not any stem followed by `-thumb.jpg`. -/
theorem derivative_naming_cex :
    thumbnailFilename "a.tif" = "a.tif" ∧
    strEndsWith (thumbnailFilename "a.tif") "-thumb.jpg" = false := by
  constructor
  · rfl
  · decide

/-- C8 amended: for every map record whose `imageFile` ends
case-insensitively in `.jpg`, `.jpeg` or `.png`, the thumbnail filename is
the stem followed by `-thumb.jpg`, and the multi-resolution targets are
`{stem}{tierSuffix}.webp` and `{stem}{tierSuffix}{ext}` for the tier
suffixes `-small`, `-medium`, `-large` and the empty suffix on the 100%
tier, with `ext = ".png"` iff the source is a PNG and `".jpg"`
otherwise. -/
theorem derivative_naming (f stem : String)
    (h : stripRasterExt f = some stem) :
    thumbnailFilename f = stem ++ "-thumb.jpg" ∧
    sizes.map (fun s => s.suffix) = ["-small", "-medium", "-large", ""] ∧
    mapTargetFiles f =
      [ FPath.publicImage (stem ++ "-small.webp"),
        FPath.publicImage (stem ++ "-small" ++ (if isPNG f then ".png" else ".jpg")),
        FPath.publicImage (stem ++ "-medium.webp"),
        FPath.publicImage (stem ++ "-medium" ++ (if isPNG f then ".png" else ".jpg")),
        FPath.publicImage (stem ++ "-large.webp"),
        FPath.publicImage (stem ++ "-large" ++ (if isPNG f then ".png" else ".jpg")),
        FPath.publicImage (stem ++ ".webp"),
        FPath.publicImage (stem ++ (if isPNG f then ".png" else ".jpg")) ] := by
  refine ⟨?_, rfl, ?_⟩
  · rw [thumbnailFilename, h]
  · simp only [mapTargetFiles, sizes, baseName, fallbackExt, h,
      List.flatMap_cons, List.flatMap_nil, List.append_nil,
      List.cons_append, List.nil_append, String.append_assoc,
      String.append_empty]
    rfl

/-- Witness for C8 (amended): the names produced for `a.jpg`. -/
theorem derivative_naming_witness :
    thumbnailFilename "a.jpg" = "a" ++ "-thumb.jpg" ∧
    sizes.map (fun s => s.suffix) = ["-small", "-medium", "-large", ""] ∧
    mapTargetFiles "a.jpg" =
      [ FPath.publicImage ("a" ++ "-small.webp"),
        FPath.publicImage ("a" ++ "-small" ++ (if isPNG "a.jpg" then ".png" else ".jpg")),
        FPath.publicImage ("a" ++ "-medium.webp"),
        FPath.publicImage ("a" ++ "-medium" ++ (if isPNG "a.jpg" then ".png" else ".jpg")),
        FPath.publicImage ("a" ++ "-large.webp"),
        FPath.publicImage ("a" ++ "-large" ++ (if isPNG "a.jpg" then ".png" else ".jpg")),
        FPath.publicImage ("a" ++ ".webp"),
        FPath.publicImage ("a" ++ (if isPNG "a.jpg" then ".png" else ".jpg")) ] :=
  derivative_naming "a.jpg" "a" (by decide)

/-- C7: `loadMapData` sorts the parsed records ascending by the numeric
`year` field, returning a permutation of all parsed records. -/
theorem loadMapData_sorted (dataFiles : List DataFile)
    (maps : List MapRecord) (h : loadMapData dataFiles = .ok maps) :
    maps.Sorted yearLe ∧
    ∃ records,
      parseAll ((dataFiles.filter fun f => strEndsWith f.1 ".json").map
        fun f => f.2) = .ok records ∧
      maps.Perm records := by
  rw [loadMapData] at h
  cases hp : parseAll ((dataFiles.filter fun f => strEndsWith f.1 ".json").map
      fun f => f.2) with
  | error e => rw [hp] at h; cases h
  | ok records =>
    rw [hp] at h
    cases h
    exact ⟨List.sorted_insertionSort yearLe records,
      records, rfl, List.perm_insertionSort yearLe records⟩

/-- Witness for C7: files parsed in order 1920, 1850, 1990 load as the
sorted sequence 1850, 1920, 1990. -/
theorem loadMapData_sorted_witness :
    List.Sorted yearLe [rec1850, rec1920, rec1990] ∧
    ∃ records,
      parseAll ((exampleDataFiles.filter fun f => strEndsWith f.1 ".json").map
        fun f => f.2) = .ok records ∧
      List.Perm [rec1850, rec1920, rec1990] records :=
  loadMapData_sorted exampleDataFiles [rec1850, rec1920, rec1990] rfl

/-- Each iteration of the thumbnail loop increments exactly one counter
(shared helper). -/
theorem generateThumbStep_counts (force : Bool) (encodeOk : MapRecord → Bool)
    (now : Int) (acc : FS × Counts) (m : MapRecord) :
    (generateThumbStep force encodeOk now acc m).2.success +
      (generateThumbStep force encodeOk now acc m).2.skipped +
      (generateThumbStep force encodeOk now acc m).2.errors =
    acc.2.success + acc.2.skipped + acc.2.errors + 1 := by
  rw [generateThumbStep]
  repeat' split
  all_goals simp +arith

/-- Counter bookkeeping over the whole thumbnail loop (shared helper). -/
theorem thumbFold_counts (force : Bool) (encodeOk : MapRecord → Bool)
    (now : Int) (maps : List MapRecord) (acc : FS × Counts) :
    (maps.foldl (generateThumbStep force encodeOk now) acc).2.success +
      (maps.foldl (generateThumbStep force encodeOk now) acc).2.skipped +
      (maps.foldl (generateThumbStep force encodeOk now) acc).2.errors =
    acc.2.success + acc.2.skipped + acc.2.errors + maps.length := by
  induction maps generalizing acc with
  | nil => simp
  | cons m rest ih =>
    rw [List.foldl_cons, ih (generateThumbStep force encodeOk now acc m)]
    have := generateThumbStep_counts force encodeOk now acc m
    simp only [List.length_cons]
    omega

/-- C10: with the image processor available, every map in the input list
falls into exactly one of the generated/skipped/errored branches, so the
three counters of `generateThumbnails` sum to the number of maps. -/
theorem generateThumbnails_counts_partition (force : Bool)
    (encodeOk : MapRecord → Bool) (now : Int) (fs : FS)
    (maps : List MapRecord) :
    (generateThumbnails true force encodeOk now fs maps).counts.success +
      (generateThumbnails true force encodeOk now fs maps).counts.skipped +
      (generateThumbnails true force encodeOk now fs maps).counts.errors =
    maps.length := by
  rw [generateThumbnails]
  simpa using thumbFold_counts force encodeOk now maps (fs, {})

/-! ### Shared helpers: how the derivative phases change the filesystem -/

theorem writeBounded_refl (fs : FS) (t : Int) : writeBounded fs fs t :=
  fun _ => Or.inl rfl

theorem writeBounded_trans {fs fs' fs'' : FS} {t : Int}
    (h1 : writeBounded fs fs' t) (h2 : writeBounded fs' fs'' t) :
    writeBounded fs fs'' t := by
  intro p
  rcases h2 p with h | h
  · rw [h]; exact h1 p
  · exact Or.inr h

theorem fsWrite_writeBounded (fs : FS) (p : FPath) (t : Int) :
    writeBounded fs (fsWrite fs p t) t := by
  intro q
  rw [fsWrite]
  split
  · exact Or.inr rfl
  · exact Or.inl rfl

theorem writeBounded_keeps_some {fs fs' : FS} {t srcM : Int}
    (h : writeBounded fs fs' t) (q : FPath) (tm : Int)
    (hq : fs q = some tm) (h1 : srcM ≤ tm) (h2 : srcM ≤ t) :
    ∃ tm', fs' q = some tm' ∧ srcM ≤ tm' := by
  rcases h q with h' | h'
  · exact ⟨tm, h'.trans hq, h1⟩
  · exact ⟨t, h', h2⟩

theorem generateThumbStep_writeBounded (force : Bool)
    (encodeOk : MapRecord → Bool) (now : Int) (acc : FS × Counts)
    (m : MapRecord) :
    writeBounded acc.1 (generateThumbStep force encodeOk now acc m).1 now := by
  rw [generateThumbStep]
  repeat' split
  all_goals first
    | exact writeBounded_refl _ _
    | exact fsWrite_writeBounded _ _ _

theorem generateThumbStep_src (force : Bool) (encodeOk : MapRecord → Bool)
    (now : Int) (acc : FS × Counts) (m : MapRecord) (n : String) :
    (generateThumbStep force encodeOk now acc m).1 (FPath.srcImage n) =
      acc.1 (FPath.srcImage n) := by
  rw [generateThumbStep]
  repeat' split
  all_goals simp [fsWrite]

theorem thumbFold_writeBounded (force : Bool) (encodeOk : MapRecord → Bool)
    (now : Int) (maps : List MapRecord) (acc : FS × Counts) :
    writeBounded acc.1
      (maps.foldl (generateThumbStep force encodeOk now) acc).1 now := by
  induction maps generalizing acc with
  | nil => exact writeBounded_refl _ _
  | cons m rest ih =>
    rw [List.foldl_cons]
    exact writeBounded_trans
      (generateThumbStep_writeBounded force encodeOk now acc m)
      (ih (generateThumbStep force encodeOk now acc m))

theorem thumbFold_src (force : Bool) (encodeOk : MapRecord → Bool)
    (now : Int) (maps : List MapRecord) (acc : FS × Counts) (n : String) :
    (maps.foldl (generateThumbStep force encodeOk now) acc).1
        (FPath.srcImage n) = acc.1 (FPath.srcImage n) := by
  induction maps generalizing acc with
  | nil => rfl
  | cons m rest ih =>
    rw [List.foldl_cons, ih (generateThumbStep force encodeOk now acc m),
      generateThumbStep_src]

theorem mrTierStep_writeBounded (encodeOk : FPath → Bool) (now : Int)
    (f : String) (acc : FS × Counts) (size : SizeTier) :
    writeBounded acc.1 (mrTierStep encodeOk now f acc size).1 now := by
  rw [mrTierStep]
  repeat' split
  all_goals first
    | exact writeBounded_refl _ _
    | exact fsWrite_writeBounded _ _ _
    | exact writeBounded_trans (fsWrite_writeBounded _ _ _)
        (fsWrite_writeBounded _ _ _)

theorem mrTierStep_src (encodeOk : FPath → Bool) (now : Int) (f : String)
    (acc : FS × Counts) (size : SizeTier) (n : String) :
    (mrTierStep encodeOk now f acc size).1 (FPath.srcImage n) =
      acc.1 (FPath.srcImage n) := by
  rw [mrTierStep]
  repeat' split
  all_goals simp [fsWrite]

theorem mrTiersFold_writeBounded (encodeOk : FPath → Bool) (now : Int)
    (f : String) (tiers : List SizeTier) (acc : FS × Counts) :
    writeBounded acc.1
      (tiers.foldl (mrTierStep encodeOk now f) acc).1 now := by
  induction tiers generalizing acc with
  | nil => exact writeBounded_refl _ _
  | cons s rest ih =>
    rw [List.foldl_cons]
    exact writeBounded_trans (mrTierStep_writeBounded encodeOk now f acc s)
      (ih (mrTierStep encodeOk now f acc s))

theorem mrTiersFold_src (encodeOk : FPath → Bool) (now : Int) (f : String)
    (tiers : List SizeTier) (acc : FS × Counts) (n : String) :
    (tiers.foldl (mrTierStep encodeOk now f) acc).1 (FPath.srcImage n) =
      acc.1 (FPath.srcImage n) := by
  induction tiers generalizing acc with
  | nil => rfl
  | cons s rest ih =>
    rw [List.foldl_cons, ih (mrTierStep encodeOk now f acc s), mrTierStep_src]

theorem mrMapStep_writeBounded (force : Bool) (encodeOk : FPath → Bool)
    (now : Int) (acc : FS × Counts) (m : MapRecord) :
    writeBounded acc.1 (mrMapStep force encodeOk now acc m).1 now := by
  rw [mrMapStep]
  repeat' split
  all_goals first
    | exact writeBounded_refl _ _
    | exact mrTiersFold_writeBounded _ _ _ _ _

theorem mrMapStep_src (force : Bool) (encodeOk : FPath → Bool) (now : Int)
    (acc : FS × Counts) (m : MapRecord) (n : String) :
    (mrMapStep force encodeOk now acc m).1 (FPath.srcImage n) =
      acc.1 (FPath.srcImage n) := by
  rw [mrMapStep]
  repeat' split
  all_goals first
    | rfl
    | exact mrTiersFold_src _ _ _ _ _ _

theorem mrFold_writeBounded (force : Bool) (encodeOk : FPath → Bool)
    (now : Int) (maps : List MapRecord) (acc : FS × Counts) :
    writeBounded acc.1
      (maps.foldl (mrMapStep force encodeOk now) acc).1 now := by
  induction maps generalizing acc with
  | nil => exact writeBounded_refl _ _
  | cons m rest ih =>
    rw [List.foldl_cons]
    exact writeBounded_trans (mrMapStep_writeBounded force encodeOk now acc m)
      (ih (mrMapStep force encodeOk now acc m))

theorem mrFold_src (force : Bool) (encodeOk : FPath → Bool) (now : Int)
    (maps : List MapRecord) (acc : FS × Counts) (n : String) :
    (maps.foldl (mrMapStep force encodeOk now) acc).1 (FPath.srcImage n) =
      acc.1 (FPath.srcImage n) := by
  induction maps generalizing acc with
  | nil => rfl
  | cons m rest ih =>
    rw [List.foldl_cons, ih (mrMapStep force encodeOk now acc m), mrMapStep_src]

/-! ### Shared helpers: freshness and the skip branches -/

theorem freshFor_nr_false {fs : FS} {t : Int} {src : FPath}
    {targets : List FPath} (h : freshFor fs t src targets) :
    needsRegeneration false fs src targets = false := by
  obtain ⟨srcM, hs, _, hall⟩ := h
  cases hb : needsRegeneration false fs src targets with
  | false => rfl
  | true =>
    obtain ⟨p, hp, hstale⟩ :=
      (needsRegeneration_true_iff fs src targets srcM hs).mp hb
    obtain ⟨tm, htm, hle⟩ := hall p hp
    rcases hstale with hnone | ⟨tm', htm', hlt⟩
    · rw [hnone] at htm; cases htm
    · rw [htm'] at htm; cases htm; omega

theorem nr_false_freshFor {fs : FS} {t srcM : Int} {src : FPath}
    {targets : List FPath} (hs : fs src = some srcM) (hle : srcM ≤ t)
    (h : needsRegeneration false fs src targets = false) :
    freshFor fs t src targets := by
  refine ⟨srcM, hs, hle, fun p hp => ?_⟩
  cases hfp : fs p with
  | none =>
    exfalso
    have : needsRegeneration false fs src targets = true :=
      (needsRegeneration_true_iff fs src targets srcM hs).mpr
        ⟨p, hp, Or.inl hfp⟩
    rw [h] at this; cases this
  | some tm =>
    refine ⟨tm, rfl, ?_⟩
    by_contra hlt
    have : needsRegeneration false fs src targets = true :=
      (needsRegeneration_true_iff fs src targets srcM hs).mpr
        ⟨p, hp, Or.inr ⟨tm, hfp, by omega⟩⟩
    rw [h] at this; cases this

theorem freshFor_mono {fs fs' : FS} {t : Int} {src : FPath}
    {targets : List FPath} (hw : writeBounded fs fs' t)
    (hsrc : fs' src = fs src) (h : freshFor fs t src targets) :
    freshFor fs' t src targets := by
  obtain ⟨srcM, hs, hle, hall⟩ := h
  refine ⟨srcM, hsrc.trans hs, hle, fun p hp => ?_⟩
  obtain ⟨tm, htm, htmle⟩ := hall p hp
  exact writeBounded_keeps_some hw p tm htm htmle hle

theorem writeBounded_keeps_value {fs fs' : FS} {t : Int}
    (h : writeBounded fs fs' t) (q : FPath) (hq : fs q = some t) :
    fs' q = some t := by
  rcases h q with h' | h'
  · exact h'.trans hq
  · exact h'

theorem generateThumbStep_fresh (t : Int) (acc : FS × Counts)
    (m : MapRecord) (srcM : Int)
    (hs : acc.1 (FPath.srcImage m.imageFile) = some srcM) (hle : srcM ≤ t) :
    freshFor (generateThumbStep false (fun _ => true) t acc m).1 t
      (FPath.srcImage m.imageFile)
      [FPath.thumb (thumbnailFilename m.imageFile)] := by
  rw [generateThumbStep]
  simp only [hs, Option.isNone_some, Bool.false_eq_true, if_false]
  split
  · exact nr_false_freshFor hs hle (by assumption)
  · split
    · refine ⟨srcM, ?_, hle, fun p hp => ?_⟩
      · simp [fsWrite, hs]
      · rw [List.mem_singleton] at hp
        subst hp
        exact ⟨t, by simp [fsWrite], hle⟩
    · next hfalse => simp at hfalse

theorem thumbFold_establishes (t : Int) (maps : List MapRecord)
    (acc : FS × Counts)
    (H : ∀ m ∈ maps,
      ∃ srcM, acc.1 (FPath.srcImage m.imageFile) = some srcM ∧ srcM ≤ t) :
    ∀ m ∈ maps,
      freshFor (maps.foldl (generateThumbStep false (fun _ => true) t) acc).1
        t (FPath.srcImage m.imageFile)
        [FPath.thumb (thumbnailFilename m.imageFile)] := by
  induction maps generalizing acc with
  | nil => intro m hm; cases hm
  | cons m0 rest ih =>
    intro m hm
    rw [List.foldl_cons]
    have hstep_src : ∀ n,
        (generateThumbStep false (fun _ => true) t acc m0).1 (FPath.srcImage n)
          = acc.1 (FPath.srcImage n) :=
      fun n => generateThumbStep_src _ _ _ _ _ n
    have H' : ∀ m' ∈ rest,
        ∃ srcM, (generateThumbStep false (fun _ => true) t acc m0).1
          (FPath.srcImage m'.imageFile) = some srcM ∧ srcM ≤ t := by
      intro m' hm'
      obtain ⟨sM, hsM, hleM⟩ := H m' (List.mem_cons_of_mem _ hm')
      exact ⟨sM, (hstep_src _).trans hsM, hleM⟩
    rcases List.mem_cons.mp hm with rfl | hm'
    · obtain ⟨srcM0, hs0, hle0⟩ := H m (List.mem_cons_self m rest)
      exact freshFor_mono
        (thumbFold_writeBounded false (fun _ => true) t rest _)
        (thumbFold_src false (fun _ => true) t rest _ _)
        (generateThumbStep_fresh t acc m srcM0 hs0 hle0)
    · exact ih _ H' m hm'

theorem mrTiersFold_writes_all (t : Int) (f : String)
    (tiers : List SizeTier) (acc : FS × Counts) (q : FPath)
    (hq : q ∈ tiers.flatMap fun size =>
      [ FPath.publicImage (baseName f ++ size.suffix ++ ".webp"),
        FPath.publicImage (baseName f ++ size.suffix ++ fallbackExt f) ]) :
    (tiers.foldl (mrTierStep (fun _ => true) t f) acc).1 q = some t := by
  induction tiers generalizing acc with
  | nil => simp at hq
  | cons s rest ih =>
    rw [List.foldl_cons]
    simp only [List.flatMap_cons, List.mem_append, List.mem_cons,
      List.not_mem_nil, or_false] at hq
    rcases hq with (rfl | rfl) | hq
    · refine writeBounded_keeps_value
        (mrTiersFold_writeBounded (fun _ => true) t f rest _) _ ?_
      rw [mrTierStep]
      split
      · next hfalse => simp at hfalse
      · by_cases heq :
          FPath.publicImage (baseName f ++ s.suffix ++ ".webp") =
            FPath.publicImage (baseName f ++ s.suffix ++ fallbackExt f)
        · simp [fsWrite, heq]
        · simp [fsWrite, if_neg heq]
    · refine writeBounded_keeps_value
        (mrTiersFold_writeBounded (fun _ => true) t f rest _) _ ?_
      rw [mrTierStep]
      split
      · next hfalse => simp at hfalse
      · simp [fsWrite]
    · exact ih _ hq

theorem mrMapStep_fresh (t : Int) (acc : FS × Counts) (m : MapRecord)
    (srcM : Int) (hs : acc.1 (FPath.srcImage m.imageFile) = some srcM)
    (hle : srcM ≤ t) :
    freshFor (mrMapStep false (fun _ => true) t acc m).1 t
      (FPath.srcImage m.imageFile) (mapTargetFiles m.imageFile) := by
  rw [mrMapStep]
  simp only [hs, Option.isNone_some, Bool.false_eq_true, if_false]
  split
  · exact nr_false_freshFor hs hle (by assumption)
  · refine ⟨srcM, ?_, hle, fun p hp => ?_⟩
    · rw [mrTiersFold_src]
      exact hs
    · exact ⟨t, mrTiersFold_writes_all t m.imageFile sizes _ p hp, hle⟩

theorem mrFold_establishes (t : Int) (maps : List MapRecord)
    (acc : FS × Counts)
    (H : ∀ m ∈ maps,
      ∃ srcM, acc.1 (FPath.srcImage m.imageFile) = some srcM ∧ srcM ≤ t) :
    ∀ m ∈ maps,
      freshFor (maps.foldl (mrMapStep false (fun _ => true) t) acc).1 t
        (FPath.srcImage m.imageFile) (mapTargetFiles m.imageFile) := by
  induction maps generalizing acc with
  | nil => intro m hm; cases hm
  | cons m0 rest ih =>
    intro m hm
    rw [List.foldl_cons]
    have hstep_src : ∀ n,
        (mrMapStep false (fun _ => true) t acc m0).1 (FPath.srcImage n)
          = acc.1 (FPath.srcImage n) :=
      fun n => mrMapStep_src _ _ _ _ _ n
    have H' : ∀ m' ∈ rest,
        ∃ srcM, (mrMapStep false (fun _ => true) t acc m0).1
          (FPath.srcImage m'.imageFile) = some srcM ∧ srcM ≤ t := by
      intro m' hm'
      obtain ⟨sM, hsM, hleM⟩ := H m' (List.mem_cons_of_mem _ hm')
      exact ⟨sM, (hstep_src _).trans hsM, hleM⟩
    rcases List.mem_cons.mp hm with rfl | hm'
    · obtain ⟨srcM0, hs0, hle0⟩ := H m (List.mem_cons_self m rest)
      exact freshFor_mono
        (mrFold_writeBounded false (fun _ => true) t rest _)
        (mrFold_src false (fun _ => true) t rest _ _)
        (mrMapStep_fresh t acc m srcM0 hs0 hle0)
    · exact ih _ H' m hm'

theorem mapTargetFiles_length (f : String) :
    (mapTargetFiles f).length = 8 := rfl

theorem thumbFold_skips (t t2 : Int) (encodeOk : MapRecord → Bool)
    (maps : List MapRecord) (acc : FS × Counts)
    (H : ∀ m ∈ maps, freshFor acc.1 t (FPath.srcImage m.imageFile)
      [FPath.thumb (thumbnailFilename m.imageFile)]) :
    maps.foldl (generateThumbStep false encodeOk t2) acc =
      (acc.1, ⟨acc.2.success, acc.2.errors,
        acc.2.skipped + maps.length⟩) := by
  induction maps generalizing acc with
  | nil => simp
  | cons m0 rest ih =>
    rw [List.foldl_cons]
    obtain ⟨srcM0, hs0, hle0, hall0⟩ := H m0 (List.mem_cons_self m0 rest)
    have hnr : needsRegeneration false acc.1 (FPath.srcImage m0.imageFile)
        [FPath.thumb (thumbnailFilename m0.imageFile)] = false :=
      freshFor_nr_false ⟨srcM0, hs0, hle0, hall0⟩
    have hstep : generateThumbStep false encodeOk t2 acc m0 =
        (acc.1, ⟨acc.2.success, acc.2.errors, acc.2.skipped + 1⟩) := by
      rw [generateThumbStep]
      simp [hs0, hnr]
    rw [hstep,
      ih (acc.1, ⟨acc.2.success, acc.2.errors, acc.2.skipped + 1⟩)
        (fun m hm => H m (List.mem_cons_of_mem _ hm))]
    simp only [List.length_cons, Counts.mk.injEq, Prod.mk.injEq, true_and,
      and_true]
    omega

theorem mrFold_skips (t t2 : Int) (force : Bool) (encodeOk : FPath → Bool)
    (maps : List MapRecord) (acc : FS × Counts)
    (hforce : force = false)
    (H : ∀ m ∈ maps, freshFor acc.1 t (FPath.srcImage m.imageFile)
      (mapTargetFiles m.imageFile)) :
    maps.foldl (mrMapStep force encodeOk t2) acc =
      (acc.1, ⟨acc.2.success, acc.2.errors,
        acc.2.skipped + 8 * maps.length⟩) := by
  subst hforce
  induction maps generalizing acc with
  | nil => simp
  | cons m0 rest ih =>
    rw [List.foldl_cons]
    obtain ⟨srcM0, hs0, hle0, hall0⟩ := H m0 (List.mem_cons_self m0 rest)
    have hnr : needsRegeneration false acc.1 (FPath.srcImage m0.imageFile)
        (mapTargetFiles m0.imageFile) = false :=
      freshFor_nr_false ⟨srcM0, hs0, hle0, hall0⟩
    have hstep : mrMapStep false encodeOk t2 acc m0 =
        (acc.1, ⟨acc.2.success, acc.2.errors, acc.2.skipped + 8⟩) := by
      rw [mrMapStep]
      simp [hs0, hnr, mapTargetFiles_length]
    rw [hstep,
      ih (acc.1, ⟨acc.2.success, acc.2.errors, acc.2.skipped + 8⟩)
        (fun m hm => H m (List.mem_cons_of_mem _ hm))]
    simp only [List.length_cons, Counts.mk.injEq, Prod.mk.injEq, true_and,
      and_true]
    omega

/-- C4: with the force flag off and every source image present no later
than the first run's clock, running both derivative phases twice in a row
with no source changes leaves the filesystem of the second run identical
to the first run's result (zero writes), and the second run reports every
thumbnail skipped (`maps.length` skips, no generations, no errors) and
every multi-resolution variant skipped (`8 * maps.length` variant skips,
no generations, no errors). -/
theorem runDerivatives_idempotent (maps : List MapRecord) (fs0 : FS)
    (t1 t2 : Int)
    (hsrc : ∀ m ∈ maps,
      ∃ srcM, fs0 (FPath.srcImage m.imageFile) = some srcM ∧ srcM ≤ t1) :
    (runDerivatives true false (fun _ => true) (fun _ => true) t2
        (runDerivatives true false (fun _ => true) (fun _ => true) t1 fs0
          maps).1 maps).1 =
      (runDerivatives true false (fun _ => true) (fun _ => true) t1 fs0
        maps).1 ∧
    (runDerivatives true false (fun _ => true) (fun _ => true) t2
        (runDerivatives true false (fun _ => true) (fun _ => true) t1 fs0
          maps).1 maps).2.1 = ⟨0, 0, maps.length⟩ ∧
    (runDerivatives true false (fun _ => true) (fun _ => true) t2
        (runDerivatives true false (fun _ => true) (fun _ => true) t1 fs0
          maps).1 maps).2.2 = ⟨0, 0, 8 * maps.length⟩ := by
  -- Unfold both runs to the underlying folds.
  have hre : ∀ (tOk : MapRecord → Bool) (mOk : FPath → Bool) (tt : Int)
      (g : FS),
      runDerivatives true false tOk mOk tt g maps =
        ((maps.foldl (mrMapStep false mOk tt)
            ((maps.foldl (generateThumbStep false tOk tt)
              (g, ({} : Counts))).1, ({} : Counts))).1,
         (maps.foldl (generateThumbStep false tOk tt)
            (g, ({} : Counts))).2,
         (maps.foldl (mrMapStep false mOk tt)
            ((maps.foldl (generateThumbStep false tOk tt)
              (g, ({} : Counts))).1, ({} : Counts))).2) :=
    fun _ _ _ _ => rfl
  simp only [hre]
  set fs1 := (maps.foldl (generateThumbStep false (fun _ => true) t1)
    (fs0, ({} : Counts))).1 with hfs1
  set fs2 := (maps.foldl (mrMapStep false (fun _ => true) t1)
    (fs1, ({} : Counts))).1 with hfs2
  -- Sources are untouched by both phases of the first run.
  have hsrc1 : ∀ m ∈ maps,
      ∃ srcM, fs1 (FPath.srcImage m.imageFile) = some srcM ∧ srcM ≤ t1 := by
    intro m hm
    obtain ⟨sM, hsM, hleM⟩ := hsrc m hm
    exact ⟨sM, (thumbFold_src false (fun _ => true) t1 maps
      (fs0, {}) m.imageFile).trans hsM, hleM⟩
  -- After the first run every thumbnail and every variant is fresh.
  have hthumbFresh : ∀ m ∈ maps,
      freshFor fs2 t1 (FPath.srcImage m.imageFile)
        [FPath.thumb (thumbnailFilename m.imageFile)] := by
    intro m hm
    exact freshFor_mono
      (mrFold_writeBounded false (fun _ => true) t1 maps (fs1, {}))
      (mrFold_src false (fun _ => true) t1 maps (fs1, {}) m.imageFile)
      (thumbFold_establishes t1 maps (fs0, {}) hsrc m hm)
  have hmrFresh : ∀ m ∈ maps,
      freshFor fs2 t1 (FPath.srcImage m.imageFile)
        (mapTargetFiles m.imageFile) :=
    mrFold_establishes t1 maps (fs1, {}) hsrc1
  -- The second run therefore only skips.
  have hthumb2 := thumbFold_skips t1 t2 (fun _ => true) maps
    (fs2, ({} : Counts)) hthumbFresh
  have hmr2 := mrFold_skips t1 t2 false (fun _ => true) maps
    (fs2, ({} : Counts)) rfl hmrFresh
  have h1 : (maps.foldl (generateThumbStep false (fun _ => true) t2)
      (fs2, ({} : Counts))).1 = fs2 := by rw [hthumb2]
  have h2 : (maps.foldl (generateThumbStep false (fun _ => true) t2)
      (fs2, ({} : Counts))).2 = ⟨0, 0, maps.length⟩ := by
    rw [hthumb2]
    simp
  have h3 : (maps.foldl (mrMapStep false (fun _ => true) t2)
      (fs2, ({} : Counts))).1 = fs2 := by rw [hmr2]
  have h4 : (maps.foldl (mrMapStep false (fun _ => true) t2)
      (fs2, ({} : Counts))).2 = ⟨0, 0, 8 * maps.length⟩ := by
    rw [hmr2]
    simp
  refine ⟨?_, ?_, ?_⟩
  · rw [h1, h3]
  · exact h2
  · rw [h1, h4]

/-- Witness for C4: one map whose source exists at mtime 0; a first run at
time 5 followed by a second run at time 9 changes nothing and reports 1
thumbnail and 8 variants skipped. -/
theorem runDerivatives_idempotent_witness :
    (runDerivatives true false (fun _ => true) (fun _ => true) 9
        (runDerivatives true false (fun _ => true) (fun _ => true) 5
          sourceOnlyFS [rec1920]).1 [rec1920]).1 =
      (runDerivatives true false (fun _ => true) (fun _ => true) 5
        sourceOnlyFS [rec1920]).1 ∧
    (runDerivatives true false (fun _ => true) (fun _ => true) 9
        (runDerivatives true false (fun _ => true) (fun _ => true) 5
          sourceOnlyFS [rec1920]).1 [rec1920]).2.1 = ⟨0, 0, 1⟩ ∧
    (runDerivatives true false (fun _ => true) (fun _ => true) 9
        (runDerivatives true false (fun _ => true) (fun _ => true) 5
          sourceOnlyFS [rec1920]).1 [rec1920]).2.2 = ⟨0, 0, 8⟩ :=
  runDerivatives_idempotent [rec1920] sourceOnlyFS 5 9 (by
    intro m hm
    rw [List.mem_singleton] at hm
    subst hm
    exact ⟨0, rfl, by decide⟩)

/-! ### Shared helpers: counter bookkeeping of the multi-resolution loop -/

theorem mrTierStep_inv (encodeOk : FPath → Bool) (now : Int) (f : String)
    (acc : FS × Counts) (size : SizeTier) :
    (mrTierStep encodeOk now f acc size).2.success +
      2 * (mrTierStep encodeOk now f acc size).2.errors +
      (mrTierStep encodeOk now f acc size).2.skipped =
    acc.2.success + 2 * acc.2.errors + acc.2.skipped + 2 := by
  rw [mrTierStep]
  repeat' split
  all_goals simp +arith

theorem mrTiersFold_inv (encodeOk : FPath → Bool) (now : Int) (f : String)
    (tiers : List SizeTier) (acc : FS × Counts) :
    (tiers.foldl (mrTierStep encodeOk now f) acc).2.success +
      2 * (tiers.foldl (mrTierStep encodeOk now f) acc).2.errors +
      (tiers.foldl (mrTierStep encodeOk now f) acc).2.skipped =
    acc.2.success + 2 * acc.2.errors + acc.2.skipped + 2 * tiers.length := by
  induction tiers generalizing acc with
  | nil => simp
  | cons s rest ih =>
    rw [List.foldl_cons, ih (mrTierStep encodeOk now f acc s)]
    have := mrTierStep_inv encodeOk now f acc s
    simp only [List.length_cons]
    omega

theorem mrMapStep_inv (force : Bool) (encodeOk : FPath → Bool) (now : Int)
    (acc : FS × Counts) (m : MapRecord)
    (hs : (acc.1 (FPath.srcImage m.imageFile)).isSome = true) :
    (mrMapStep force encodeOk now acc m).2.success +
      2 * (mrMapStep force encodeOk now acc m).2.errors +
      (mrMapStep force encodeOk now acc m).2.skipped =
    acc.2.success + 2 * acc.2.errors + acc.2.skipped + 8 := by
  rw [mrMapStep]
  simp only [Option.isSome_iff_ne_none] at hs
  rw [if_neg (by simpa using hs)]
  split
  · simp only [mapTargetFiles_length]
    simp +arith
  · have := mrTiersFold_inv encodeOk now m.imageFile sizes (acc.1, acc.2)
    simpa using this

theorem mrFold_inv (force : Bool) (encodeOk : FPath → Bool) (now : Int)
    (maps : List MapRecord) (acc : FS × Counts)
    (H : ∀ m ∈ maps, (acc.1 (FPath.srcImage m.imageFile)).isSome = true) :
    (maps.foldl (mrMapStep force encodeOk now) acc).2.success +
      2 * (maps.foldl (mrMapStep force encodeOk now) acc).2.errors +
      (maps.foldl (mrMapStep force encodeOk now) acc).2.skipped =
    acc.2.success + 2 * acc.2.errors + acc.2.skipped + 8 * maps.length := by
  induction maps generalizing acc with
  | nil => simp
  | cons m0 rest ih =>
    rw [List.foldl_cons]
    have H' : ∀ m ∈ rest,
        ((mrMapStep force encodeOk now acc m0).1
          (FPath.srcImage m.imageFile)).isSome = true := by
      intro m hm
      rw [mrMapStep_src]
      exact H m (List.mem_cons_of_mem _ hm)
    rw [ih (mrMapStep force encodeOk now acc m0) H']
    have := mrMapStep_inv force encodeOk now acc m0
      (H m0 (List.mem_cons_self m0 rest))
    simp only [List.length_cons]
    omega

theorem mrTiersFold_okAll_errors (now : Int) (f : String)
    (tiers : List SizeTier) (acc : FS × Counts) :
    (tiers.foldl (mrTierStep (fun _ => true) now f) acc).2.errors =
      acc.2.errors := by
  induction tiers generalizing acc with
  | nil => rfl
  | cons s rest ih =>
    rw [List.foldl_cons, ih]
    rw [mrTierStep]
    split
    · next hfalse => simp at hfalse
    · rfl

theorem mrFold_okAll_errors (force : Bool) (now : Int)
    (maps : List MapRecord) (acc : FS × Counts) :
    (maps.foldl (mrMapStep force (fun _ => true) now) acc).2.errors =
      acc.2.errors +
        (maps.filter fun m =>
          (acc.1 (FPath.srcImage m.imageFile)).isNone).length := by
  induction maps generalizing acc with
  | nil => simp
  | cons m0 rest ih =>
    rw [List.foldl_cons, ih (mrMapStep force (fun _ => true) now acc m0)]
    have hfilter :
        (rest.filter fun m =>
          ((mrMapStep force (fun _ => true) now acc m0).1
            (FPath.srcImage m.imageFile)).isNone) =
        (rest.filter fun m =>
          (acc.1 (FPath.srcImage m.imageFile)).isNone) := by
      refine List.filter_congr fun m _ => ?_
      rw [mrMapStep_src]
    rw [hfilter]
    cases hs : (acc.1 (FPath.srcImage m0.imageFile)).isNone with
    | true =>
      have hstep : (mrMapStep force (fun _ => true) now acc m0).2.errors =
          acc.2.errors + 1 := by
        rw [mrMapStep, if_pos hs]
      rw [hstep, List.filter_cons_of_pos (by simp [hs])]
      simp only [List.length_cons]
      omega
    | false =>
      have hstep : (mrMapStep force (fun _ => true) now acc m0).2.errors =
          acc.2.errors := by
        rw [mrMapStep, if_neg (by simp [hs])]
        split
        · rfl
        · exact mrTiersFold_okAll_errors now m0.imageFile sizes (acc.1, acc.2)
      rw [hstep, List.filter_cons_of_neg (by simp [hs])]

/-- C5: per-map failures (missing source, encode error on a tier) are
counted and processing continues, so the exit code is zero exactly when
the metadata load succeeds: (1) the process exit code is 0 iff
`loadMapData` resolves, for every oracle of per-map failures; (2) with all
sources present, every one of the `8 * maps.length` variant slots is
accounted for as generated, errored (one error spans the tier's two
files) or skipped, whatever the encode oracle does; (3) with encodes
succeeding, the multi-resolution error count is exactly the number of
maps whose source image is missing. -/
theorem build_error_isolation :
    (∀ (sharpAvailable force skipImages imagesOnly : Bool)
       (thumbOk : MapRecord → Bool) (mrOk : FPath → Bool) (now : Int)
       (fs0 : FS) (dataFiles : List DataFile) (imagesList : List String),
       buildExitCode sharpAvailable force skipImages imagesOnly thumbOk mrOk
           now fs0 dataFiles imagesList =
         if (loadMapData dataFiles).isOk then 0 else 1) ∧
    (∀ (force : Bool) (mrOk : FPath → Bool) (now : Int) (fs : FS)
       (maps : List MapRecord),
       (∀ m ∈ maps, (fs (FPath.srcImage m.imageFile)).isSome = true) →
       (generateMultiResolutionImages true force mrOk now fs
           maps).counts.success +
         2 * (generateMultiResolutionImages true force mrOk now fs
           maps).counts.errors +
         (generateMultiResolutionImages true force mrOk now fs
           maps).counts.skipped = 8 * maps.length) ∧
    (∀ (force : Bool) (now : Int) (fs : FS) (maps : List MapRecord),
       (generateMultiResolutionImages true force (fun _ => true) now fs
           maps).counts.errors =
         (maps.filter fun m =>
           (fs (FPath.srcImage m.imageFile)).isNone).length) := by
  refine ⟨?_, ?_, ?_⟩
  · intro sharpAvailable force skipImages imagesOnly thumbOk mrOk now fs0
      dataFiles imagesList
    rw [buildExitCode, build]
    cases hl : loadMapData dataFiles with
    | error e => simp [Except.isOk, Except.toBool]
    | ok maps => simp [Except.isOk, Except.toBool]
  · intro force mrOk now fs maps H
    rw [generateMultiResolutionImages]
    simpa using mrFold_inv force mrOk now maps (fs, {}) H
  · intro force now fs maps
    rw [generateMultiResolutionImages]
    simpa using mrFold_okAll_errors force now maps (fs, {})

/-- Witness for C5: one map whose source exists while the small-WebP
encode fails — the failing tier is counted as one error, the other three
tiers still generate (6 successes), all 8 slots accounted for; and the
example build exits 0. -/
theorem build_error_isolation_witness :
    buildExitCode true false false false (fun _ => true) (fun _ => true) 5
        sourceOnlyFS exampleDataFiles [] =
      (if (loadMapData exampleDataFiles).isOk then 0 else 1) ∧
    (generateMultiResolutionImages true false failSmallWebp 5 sourceOnlyFS
        [rec1920]).counts.success +
      2 * (generateMultiResolutionImages true false failSmallWebp 5
        sourceOnlyFS [rec1920]).counts.errors +
      (generateMultiResolutionImages true false failSmallWebp 5 sourceOnlyFS
        [rec1920]).counts.skipped = 8 * [rec1920].length :=
  ⟨build_error_isolation.1 true false false false (fun _ => true)
      (fun _ => true) 5 sourceOnlyFS exampleDataFiles [],
   build_error_isolation.2.1 false failSmallWebp 5 sourceOnlyFS [rec1920]
    (by
      intro m hm
      rw [List.mem_singleton] at hm
      subst hm
      decide)⟩

/-! ### Shared helpers: HTML generation and image copying -/

theorem htmlFold_src (now : Int) (names : List String) :
    ∀ (g : FS) (n : String),
    (names.foldl (fun f nm => fsWrite f (FPath.htmlFile nm) now) g)
      (FPath.srcImage n) = g (FPath.srcImage n) := by
  induction names with
  | nil => intro g n; rfl
  | cons nm rest ih =>
    intro g n
    rw [List.foldl_cons, ih]
    simp [fsWrite]

theorem copyFold_snd (now : Int) (l : List String) :
    ∀ (g : FS) (cs : List String),
    (l.foldl (fun acc img =>
      if (acc.1 (FPath.srcImage img)).isSome then
        (fsWrite acc.1 (FPath.publicImage img) now, acc.2 ++ [img])
      else acc) (g, cs)).2
    = cs ++ l.filter fun img => (g (FPath.srcImage img)).isSome := by
  induction l with
  | nil => intro g cs; simp
  | cons i rest ih =>
    intro g cs
    rw [List.foldl_cons]
    cases hi : (g (FPath.srcImage i)).isSome with
    | true =>
      simp only [hi, if_true]
      rw [ih (fsWrite g (FPath.publicImage i) now) (cs ++ [i])]
      have hcong : (rest.filter fun img =>
          ((fsWrite g (FPath.publicImage i) now)
            (FPath.srcImage img)).isSome) =
          rest.filter fun img => (g (FPath.srcImage img)).isSome :=
        List.filter_congr fun img _ => by simp [fsWrite]
      rw [hcong, List.filter_cons_of_pos (by simp [hi])]
      simp
    | false =>
      simp only [hi, Bool.false_eq_true, if_false]
      rw [ih g cs, List.filter_cons_of_neg (by simp [hi])]

theorem copyImages_snd (now : Int) (g : FS) (l : List String) :
    (copyImages now g l).2 =
      l.filter fun img => (g (FPath.srcImage img)).isSome := by
  rw [copyImages]
  simpa using copyFold_snd now l g []

/-- C6: when the image-processing primitive is unavailable, both
derivative phases log the warning and return with no file written and all
counters zero, for every map list, while `build` still produces every HTML
page and copies every existing original image. -/
theorem sharp_unavailable_degraded (force : Bool) (thumbOk : MapRecord → Bool)
    (mrOk : FPath → Bool) (now : Int) (fs : FS) (dataFiles : List DataFile)
    (imagesList : List String) (maps : List MapRecord)
    (hload : loadMapData dataFiles = .ok maps) :
    generateThumbnails false force thumbOk now fs maps =
      ⟨fs, {}, true⟩ ∧
    generateMultiResolutionImages false force mrOk now fs maps =
      ⟨fs, {}, true⟩ ∧
    ∃ out, build false force false false thumbOk mrOk now fs dataFiles
        imagesList = .ok out ∧
      out.thumbWarning = true ∧ out.mrWarning = true ∧
      out.thumbCounts = {} ∧ out.mrCounts = {} ∧
      out.htmlFiles = "index.html" :: maps.map detailFilename ∧
      out.copiedImages = imagesList.filter fun img =>
        (fs (FPath.srcImage img)).isSome := by
  refine ⟨rfl, rfl, ?_⟩
  have hb : build false force false false thumbOk mrOk now fs dataFiles
      imagesList = .ok
      ⟨(copyImages now
          (("index.html" :: maps.map detailFilename).foldl
            (fun f n => fsWrite f (FPath.htmlFile n) now) fs)
          imagesList).1,
        {}, {}, true, true, "index.html" :: maps.map detailFilename,
        (copyImages now
          (("index.html" :: maps.map detailFilename).foldl
            (fun f n => fsWrite f (FPath.htmlFile n) now) fs)
          imagesList).2⟩ := by
    simp only [build, hload]
    rfl
  refine ⟨_, hb, rfl, rfl, rfl, rfl, rfl, ?_⟩
  rw [copyImages_snd]
  exact List.filter_congr fun img _ => by rw [htmlFold_src]

/-- Witness for C6: a degraded build over the three example records with
one existing original image leaves both phases inert yet still renders
the pages and copies the one existing image. -/
theorem sharp_unavailable_degraded_witness :
    generateThumbnails false false (fun _ => true) 5 sourceOnlyFS
      [rec1850, rec1920, rec1990] = ⟨sourceOnlyFS, {}, true⟩ ∧
    generateMultiResolutionImages false false (fun _ => true) 5 sourceOnlyFS
      [rec1850, rec1920, rec1990] = ⟨sourceOnlyFS, {}, true⟩ ∧
    ∃ out, build false false false false (fun _ => true) (fun _ => true) 5
        sourceOnlyFS exampleDataFiles ["a.jpg", "zzz.png"] = .ok out ∧
      out.thumbWarning = true ∧ out.mrWarning = true ∧
      out.thumbCounts = {} ∧ out.mrCounts = {} ∧
      out.htmlFiles =
        "index.html" :: [rec1850, rec1920, rec1990].map detailFilename ∧
      out.copiedImages = ["a.jpg", "zzz.png"].filter fun img =>
        (sourceOnlyFS (FPath.srcImage img)).isSome :=
  sharp_unavailable_degraded false (fun _ => true) (fun _ => true) 5
    sourceOnlyFS exampleDataFiles ["a.jpg", "zzz.png"]
    [rec1850, rec1920, rec1990] rfl

end MapGen
